import Mathlib

/-!
Verification of the DynamoDB Marshal/Unmarshal helper (`dynamodb/helper.go`).

The Go code converts between native dynamic values (`interface{}`) and the
AWS `AttributeValue` tagged union.  This file gives a shallow embedding of
that code and proves/refutes the frozen claims about it.

Modelling conventions:
  * Go pointers to scalars (`*string`, `*bool`) are `Option`; a `nil` slice
    and an empty slice are both `[]` (Go treats them identically via `len`).
  * Go `int` is modelled as `Int`; the 64-bit range appears as an explicit
    hypothesis where the claims need it.
  * A Go runtime panic is modelled as `Except.error ()`.
  * `fmt.Sprint` on an integer is `goSprintInt` (decimal text, `-` sign);
    `strconv.Atoi` is `goAtoi` (sign, decimal digits, 64-bit clamping on
    range overflow, `(0, false)` on a syntax error — the Go function
    returns `0` together with a non-nil error in that case).
-/

namespace Dynamo

/-! ### Decimal rendering (model of `fmt.Sprint` on integers) -/

/-- The ASCII digit character for `m < 10`. -/
def digitChar (m : Nat) : Char := Char.ofNat (48 + m)

/-- Fuel-driven accumulator loop producing the decimal digits of `n` in front
of `acc`.  `fuel ≥ n + 1` always suffices. -/
def natDigitsAux : Nat → Nat → List Char → List Char
  | 0, _, acc => acc
  | fuel + 1, n, acc =>
    if n < 10 then digitChar n :: acc
    else natDigitsAux fuel (n / 10) (digitChar (n % 10) :: acc)

/-- Decimal digits of a natural number, most significant first. -/
def natDigits (n : Nat) : List Char := natDigitsAux (n + 1) n []

/-- Model of Go `fmt.Sprint` applied to an integer: decimal text with a
leading `-` for negative values. -/
def goSprintInt (n : Int) : String :=
  if n < 0 then ⟨List.cons (Char.ofNat 45) (natDigits n.natAbs)⟩
  else ⟨natDigits n.toNat⟩

/-! ### Decimal parsing (model of `strconv.Atoi`) -/

/-- ASCII decimal digit test, as Go's `'0' <= c && c <= '9'`. -/
def isDigitChar (c : Char) : Bool := 48 ≤ c.toNat && c.toNat ≤ 57

/-- Digit-accumulation loop of `strconv.ParseInt`: starting from `a`, consume
decimal digits; any non-digit character is a syntax error (`none`). -/
def parseDigitsFrom (a : Nat) : List Char → Option Nat
  | [] => some a
  | c :: cs =>
    if isDigitChar c then parseDigitsFrom (a * 10 + (c.toNat - 48)) cs else none

/-- Smallest Go `int` (64-bit platform). -/
def intMin : Int := -(2 ^ 63)

/-- Largest Go `int` (64-bit platform). -/
def intMax : Int := 2 ^ 63 - 1

/-- Weight `10 ^ (number of decimal digits of n)`, used to state the
accumulator invariant of `natDigitsAux`. -/
def decWeight (n : Nat) : Nat :=
  if n < 10 then 10 else 10 * decWeight (n / 10)
termination_by n
decreasing_by
  simp_wf
  omega

/-- Digit phase of `strconv.ParseInt` after the sign has been split off: a
non-empty digit string is required; syntax errors give `(0, false)`,
out-of-range values give the clamped 64-bit bound with `false`, otherwise
`(value, true)`. -/
def goAtoiMag (sgn : Int) (ds : List Char) : Int × Bool :=
  if ds = [] then (0, false)
  else
    match parseDigitsFrom 0 ds with
    | none => (0, false)
    | some m =>
      if sgn * (m : Int) < intMin then (intMin, false)
      else if intMax < sgn * (m : Int) then (intMax, false)
      else (sgn * (m : Int), true)

/-- Model of `strconv.Atoi` on a character list: optional single leading sign
(`-` is 45, `+` is 43), then the digit phase. -/
def goAtoiChars (cs : List Char) : Int × Bool :=
  match cs with
  | [] => (0, false)
  | c :: rest =>
    if c = Char.ofNat 45 then goAtoiMag (-1) rest
    else if c = Char.ofNat 43 then goAtoiMag 1 rest
    else goAtoiMag 1 (c :: rest)

/-- Model of `strconv.Atoi` (the `data, _ := strconv.Atoi(s)` idiom uses the
first component and discards the second). -/
def goAtoi (s : String) : Int × Bool := goAtoiChars s.data

/-! ### Data model

`AttributeValue` embeds `SDK.AttributeValue` (the slots used by the helper:
N, S, B, BOOL, M, NS, SS, BS, L, in the order the decoder checks them).
`GoValue` embeds the dynamic `interface{}` argument of
`createAttributeValue`, one constructor per shape the type switch can
distinguish; `mapSS` stands for a value whose reflection kind is `Map` but
whose dynamic type is not `map[string]interface{}` (such as
`map[string]string`), and `other` for any non-map shape matched by no case
(function, channel, struct, ...).  `DecValue` embeds the possible dynamic
results of `getItemValue`. -/

inductive AttributeValue where
  | mk : Option String → Option String → List Nat → Option Bool →
      Option (List (String × AttributeValue)) → List String → List String →
      List (List Nat) → List AttributeValue → AttributeValue

inductive GoValue where
  | str (s : String)
  | int (n : Int)
  | bytes (b : List Nat)
  | bool (b : Bool)
  | strSlice (xs : List String)
  | bytesSlice (xs : List (List Nat))
  | intSlice (xs : List Int)
  | mapSI (m : List (String × GoValue))
  | mapSS (m : List (String × String))
  | other

inductive DecValue where
  | int (n : Int)
  | str (s : String)
  | bool (b : Bool)
  | bytes (b : List Nat)
  | map (m : List (String × DecValue))
  | intList (xs : List Int)
  | strList (xs : List String)
  | bytesList (xs : List (List Nat))
  | anyList (xs : List DecValue)
  | nil

/-! ### Encoder (`createAttributeValue`, `Marshal`, `MarshalStringSlice`) -/

/-- Embeds `createPointerSliceString`: the Go function copies each string and
collects pointers; on the value level it is the identity on the list. -/
def createPointerSliceString (values : List String) : List String := values

/-- Embeds `MarshalStringSlice` at the numeric-slice instantiations used by
`createAttributeValue`: `fmt.Sprint` of every element, in order. -/
def MarshalStringSlice (item : List Int) : List String :=
  item.map goSprintInt

mutual

/-- Embeds `createAttributeValue`.  A Go runtime panic is `Except.error ()`:
the `reflect.Map` branch evaluates `v.(map[string]interface{})`, which
panics when the dynamic type is any other map type. -/
def createAttributeValue : GoValue → Except Unit AttributeValue
  | .str s => .ok (.mk none (some s) [] none none [] [] [] [])
  | .int n => .ok (.mk (some (goSprintInt n)) none [] none none [] [] [] [])
  | .bytes b => .ok (.mk none none b none none [] [] [] [])
  | .bool b => .ok (.mk none none [] (some b) none [] [] [] [])
  | .strSlice xs =>
      .ok (.mk none none [] none none [] (createPointerSliceString xs) [] [])
  | .bytesSlice xs => .ok (.mk none none [] none none [] [] xs [])
  | .intSlice xs =>
      .ok (.mk none none [] none none (MarshalStringSlice xs) [] [] [])
  | .mapSI m =>
      match marshalEntries m with
      | .error e => .error e
      | .ok enc => .ok (.mk none none [] none (some enc) [] [] [] [])
  | .mapSS _ => .error ()
  | .other => .ok (.mk none none [] none none [] [] [] [])

/-- Embeds the entry loop of `Marshal`: encode every entry's value. -/
def marshalEntries :
    List (String × GoValue) → Except Unit (List (String × AttributeValue))
  | [] => .ok []
  | (k, v) :: rest =>
      match createAttributeValue v with
      | .error e => .error e
      | .ok av =>
          match marshalEntries rest with
          | .error e => .error e
          | .ok tail => .ok ((k, av) :: tail)

end

/-- Embeds `Marshal` (returns a pointer to a freshly built map, never nil, so
no `Option` on the success side). -/
def Marshal (item : List (String × GoValue)) :
    Except Unit (List (String × AttributeValue)) :=
  marshalEntries item

/-! ### Decoder (`getItemValue`, `Unmarshal`) -/

mutual

/-- Embeds `getItemValue`: the slot checks in source order
(N, S, BOOL, `len(B) > 0`, `M != nil && len(*M) > 0`, `len(NS) > 0`,
`len(SS) > 0`, `len(BS) > 0`, `len(L) > 0`, else nil).  The N branch and the
NS loop discard the `strconv.Atoi` error and use its first return value. -/
def getItemValue : AttributeValue → DecValue
  | .mk N S B BOOL M NS SS BS L =>
    match N with
    | some ntext => .int (goAtoi ntext).1
    | none =>
      match S with
      | some s => .str s
      | none =>
        match BOOL with
        | some b => .bool b
        | none =>
          if 0 < B.length then .bytes B
          else
            match M with
            | some (e :: es) => .map (decodeEntries (e :: es))
            | _ =>
              if 0 < NS.length then
                .intList (NS.map (fun s => (goAtoi s).1))
              else if 0 < SS.length then .strList SS
              else if 0 < BS.length then .bytesList BS
              else
                match L with
                | a :: ls => .anyList (decodeList (a :: ls))
                | [] => .nil

/-- Embeds the entry loop of `Unmarshal` (reached from the M branch). -/
def decodeEntries :
    List (String × AttributeValue) → List (String × DecValue)
  | [] => []
  | (k, av) :: rest => (k, getItemValue av) :: decodeEntries rest

/-- Embeds the element loop of the L branch. -/
def decodeList : List AttributeValue → List DecValue
  | [] => []
  | av :: rest => getItemValue av :: decodeList rest

end

/-- Embeds `Unmarshal`: a nil map pointer yields the empty record, otherwise
every entry is decoded through `getItemValue`. -/
def Unmarshal (item : Option (List (String × AttributeValue))) :
    List (String × DecValue) :=
  match item with
  | none => []
  | some m => decodeEntries m

/-! ### Key schema builders -/

def KeyTypeHash : String := "HASH"

def KeyTypeRange : String := "RANGE"

/-- Embeds `SDK.KeySchemaElement` (both fields are `*string`). -/
structure KeySchemaElement where
  attributeName : Option String
  keyType : Option String

/-- Embeds `NewKeyElement`. -/
def NewKeyElement (keyName keyType : String) : KeySchemaElement :=
  ⟨some keyName, some keyType⟩

/-- Embeds `NewHashKeyElement`. -/
def NewHashKeyElement (keyName : String) : KeySchemaElement :=
  NewKeyElement keyName KeyTypeHash

/-- Embeds `NewRangeKeyElement`. -/
def NewRangeKeyElement (keyName : String) : KeySchemaElement :=
  NewKeyElement keyName KeyTypeRange

/-- Embeds `NewKeySchema`: with more than one variadic element the first two
are kept; otherwise `elements[0]` is read, which panics (`none`) on an empty
argument list. -/
def NewKeySchema (elements : List KeySchemaElement) :
    Option (List KeySchemaElement) :=
  match elements with
  | e0 :: e1 :: _ => some [e0, e1]
  | [e0] => some [e0]
  | [] => none

/-! ### Predicates and the spec-side round-trip transformation -/

/-- Values the encoder handles without panicking: everything except a map
value whose dynamic type is not `map[string]interface{}`, recursively. -/
inductive PanicFree : GoValue → Prop
  | str (s : String) : PanicFree (.str s)
  | int (n : Int) : PanicFree (.int n)
  | bytes (b : List Nat) : PanicFree (.bytes b)
  | bool (b : Bool) : PanicFree (.bool b)
  | strSlice (xs : List String) : PanicFree (.strSlice xs)
  | bytesSlice (xs : List (List Nat)) : PanicFree (.bytesSlice xs)
  | intSlice (xs : List Int) : PanicFree (.intSlice xs)
  | mapSI (m : List (String × GoValue)) :
      (∀ e ∈ m, PanicFree (Prod.snd e)) → PanicFree (.mapSI m)
  | other : PanicFree .other

/-- The leaf shapes covered by the record round-trip claim: supported
scalars (text, 64-bit integer, boolean) and non-empty nested
`map[string]interface{}` values of the same shapes. -/
inductive GoodVal : GoValue → Prop
  | str (s : String) : GoodVal (.str s)
  | int (n : Int) : intMin ≤ n → n ≤ intMax → GoodVal (.int n)
  | bool (b : Bool) : GoodVal (.bool b)
  | mapSI (m : List (String × GoValue)) : m ≠ [] →
      (∀ e ∈ m, GoodVal (Prod.snd e)) → GoodVal (.mapSI m)

mutual

/-- Modelled from the spec's words (§8): the identity on string and boolean
leaves, integers reparsed as the canonical integer type, applied
recursively under maps.  Used only to state the round-trip claim; compared
against what the code actually produces. -/
def specRoundLeaf : GoValue → DecValue
  | .str s => .str s
  | .int n => .int n
  | .bool b => .bool b
  | .mapSI m => .map (specRoundEntries m)
  | _ => .nil

/-- Entrywise extension of `specRoundLeaf`. -/
def specRoundEntries : List (String × GoValue) → List (String × DecValue)
  | [] => []
  | (k, v) :: rest => (k, specRoundLeaf v) :: specRoundEntries rest

end
/-! ### Round-trip lemmas for the decimal codec -/

lemma digitChar_toNat (m : Nat) (h : m < 10) : (digitChar m).toNat = 48 + m := by
  interval_cases m <;> decide

lemma isDigitChar_digitChar (m : Nat) (h : m < 10) :
    isDigitChar (digitChar m) = true := by
  interval_cases m <;> decide

lemma parseDigitsFrom_natDigitsAux (fuel : Nat) :
    ∀ n acc a, n < fuel →
      parseDigitsFrom a (natDigitsAux fuel n acc) =
        parseDigitsFrom (a * decWeight n + n) acc := by
  induction fuel with
  | zero => intro n acc a h; omega
  | succ fuel ih =>
    intro n acc a h
    by_cases h10 : n < 10
    · rw [natDigitsAux, if_pos h10, parseDigitsFrom,
        if_pos (isDigitChar_digitChar n h10), digitChar_toNat n h10,
        decWeight, if_pos h10]
      congr 1
      omega
    · rw [natDigitsAux, if_neg h10, ih (n / 10) _ a (by omega)]
      have hm : n % 10 < 10 := Nat.mod_lt _ (by norm_num)
      rw [parseDigitsFrom, if_pos (isDigitChar_digitChar _ hm),
        digitChar_toNat _ hm]
      have harith : ∀ w q r : Nat, 10 * q + r = n →
          (a * w + q) * 10 + (48 + r - 48) = a * (10 * w) + n := by
        intro w q r hqr
        have h48 : 48 + r - 48 = r := by omega
        rw [h48, ← hqr]
        ring
      rw [harith (decWeight (n / 10)) (n / 10) (n % 10) (by omega)]
      have hdw : decWeight n = 10 * decWeight (n / 10) := by
        conv_lhs => rw [decWeight]
        rw [if_neg h10]
      rw [hdw]

lemma parseDigitsFrom_natDigits (n : Nat) :
    parseDigitsFrom 0 (natDigits n) = some n := by
  rw [natDigits, parseDigitsFrom_natDigitsAux (n + 1) n [] 0 (by omega),
    parseDigitsFrom]
  simp

lemma natDigitsAux_ne_nil (fuel : Nat) :
    ∀ n acc, acc ≠ [] → natDigitsAux fuel n acc ≠ [] := by
  induction fuel with
  | zero => intro n acc h; simpa [natDigitsAux]
  | succ fuel ih =>
    intro n acc h
    rw [natDigitsAux]
    by_cases h10 : n < 10
    · simp [h10]
    · rw [if_neg h10]
      exact ih _ _ (by simp)

lemma natDigits_ne_nil (n : Nat) : natDigits n ≠ [] := by
  rw [natDigits, natDigitsAux]
  by_cases h10 : n < 10
  · simp [h10]
  · rw [if_neg h10]
    exact natDigitsAux_ne_nil _ _ _ (by simp)

lemma natDigitsAux_all_digits (fuel : Nat) :
    ∀ n acc, (∀ c ∈ acc, isDigitChar c = true) →
      ∀ c ∈ natDigitsAux fuel n acc, isDigitChar c = true := by
  induction fuel with
  | zero => intro n acc hacc; simpa [natDigitsAux]
  | succ fuel ih =>
    intro n acc hacc
    rw [natDigitsAux]
    by_cases h10 : n < 10
    · rw [if_pos h10]
      intro c hc
      rcases List.mem_cons.mp hc with h | h
      · subst h; exact isDigitChar_digitChar _ h10
      · exact hacc _ h
    · rw [if_neg h10]
      refine ih _ _ ?_
      intro c hc
      rcases List.mem_cons.mp hc with h | h
      · subst h; exact isDigitChar_digitChar _ (Nat.mod_lt _ (by norm_num))
      · exact hacc _ h

lemma natDigits_all_digits (n : Nat) :
    ∀ c ∈ natDigits n, isDigitChar c = true :=
  natDigitsAux_all_digits _ _ _ (by simp)

lemma digit_ne_minus (c : Char) (h : isDigitChar c = true) : c ≠ Char.ofNat 45 := by
  intro hc
  subst hc
  simp [isDigitChar] at h

lemma digit_ne_plus (c : Char) (h : isDigitChar c = true) : c ≠ Char.ofNat 43 := by
  intro hc
  subst hc
  simp [isDigitChar] at h

/-- On a successfully parsed, in-range magnitude the digit phase returns the
signed value with the success flag. -/
lemma goAtoiMag_ok (sgn : Int) (ds : List Char) (m : Nat) (hne : ds ≠ [])
    (hp : parseDigitsFrom 0 ds = some m)
    (h1 : ¬ sgn * (m : Int) < intMin) (h2 : ¬ intMax < sgn * (m : Int)) :
    goAtoiMag sgn ds = (sgn * (m : Int), true) := by
  simp only [goAtoiMag, if_neg hne, hp, if_neg h1, if_neg h2]

/-- On a pure digit string, `goAtoiChars` applies the digit phase with a
positive sign. -/
lemma goAtoiChars_digits (ds : List Char) (hds : ∀ c ∈ ds, isDigitChar c = true)
    (hne : ds ≠ []) : goAtoiChars ds = goAtoiMag 1 ds := by
  obtain ⟨c, cs, hcons⟩ := List.exists_cons_of_ne_nil hne
  subst hcons
  have hdig : isDigitChar c = true := hds c (List.mem_cons_self _ _)
  rw [goAtoiChars, if_neg (digit_ne_minus c hdig), if_neg (digit_ne_plus c hdig)]

/-- Decimal round-trip: within the 64-bit range, `strconv.Atoi` inverts
`fmt.Sprint` exactly and reports success. -/
lemma goAtoi_goSprintInt (n : Int) (h1 : intMin ≤ n) (h2 : n ≤ intMax) :
    goAtoi (goSprintInt n) = (n, true) := by
  by_cases hneg : n < 0
  · rw [goSprintInt, if_pos hneg, goAtoi]
    show goAtoiChars (Char.ofNat 45 :: natDigits n.natAbs) = (n, true)
    rw [goAtoiChars, if_pos rfl]
    have habs : (-1 : Int) * (n.natAbs : Int) = n := by omega
    rw [goAtoiMag_ok (-1) _ n.natAbs (natDigits_ne_nil _)
      (parseDigitsFrom_natDigits _)
      (by rw [habs]; omega)
      (by rw [habs]; simp only [intMax]; omega), habs]
  · rw [goSprintInt, if_neg hneg, goAtoi]
    show goAtoiChars (natDigits n.toNat) = (n, true)
    have htn : ((n.toNat : Int)) = n := Int.toNat_of_nonneg (by omega)
    rw [goAtoiChars_digits _ (natDigits_all_digits _) (natDigits_ne_nil _)]
    rw [goAtoiMag_ok 1 _ n.toNat (natDigits_ne_nil _)
      (parseDigitsFrom_natDigits _)
      (by rw [htn]; simp only [intMin]; omega)
      (by rw [htn]; omega)]
    rw [one_mul, htn]


/-! ### Structural lemmas about the encoder and decoder -/

/-- `Unmarshal`'s entry loop decodes every entry in place. -/
lemma decodeEntries_eq_map (l : List (String × AttributeValue)) :
    decodeEntries l =
      l.map (fun kv => (Prod.fst kv, getItemValue (Prod.snd kv))) := by
  induction l with
  | nil => rfl
  | cons e rest ih =>
    obtain ⟨k, av⟩ := e
    simp [decodeEntries, ih]

/-- `specRoundEntries` is the entrywise map of `specRoundLeaf`. -/
lemma specRoundEntries_eq_map (l : List (String × GoValue)) :
    specRoundEntries l =
      l.map (fun kv => (Prod.fst kv, specRoundLeaf (Prod.snd kv))) := by
  induction l with
  | nil => rfl
  | cons e rest ih =>
    obtain ⟨k, v⟩ := e
    simp [specRoundEntries, ih]

/-- When every entry value encodes successfully, the entry loop of `Marshal`
succeeds and relates input and output entrywise: keys are kept in place and
each output value is the encoding of the corresponding input value. -/
lemma marshalEntries_forall₂ (l : List (String × GoValue))
    (h : ∀ e ∈ l, ∃ av, createAttributeValue (Prod.snd e) = .ok av) :
    ∃ enc, marshalEntries l = .ok enc ∧
      List.Forall₂ (fun kv ev => Prod.fst ev = Prod.fst kv ∧
        createAttributeValue (Prod.snd kv) = .ok (Prod.snd ev)) l enc := by
  induction l with
  | nil => exact ⟨[], rfl, List.Forall₂.nil⟩
  | cons e rest ih =>
    obtain ⟨k, v⟩ := e
    obtain ⟨av, hav⟩ := h (k, v) (List.mem_cons_self _ _)
    obtain ⟨enc, henc, hrel⟩ := ih (fun x hx => h x (List.mem_cons_of_mem _ hx))
    exact ⟨(k, av) :: enc, by simp only [marshalEntries, hav, henc],
      List.Forall₂.cons ⟨rfl, hav⟩ hrel⟩

/-- Every panic-free value encodes successfully. -/
lemma createAttributeValue_ok (v : GoValue) (h : PanicFree v) :
    ∃ av, createAttributeValue v = .ok av := by
  induction h with
  | str s => exact ⟨_, rfl⟩
  | int n => exact ⟨_, rfl⟩
  | bytes b => exact ⟨_, rfl⟩
  | bool b => exact ⟨_, rfl⟩
  | strSlice xs => exact ⟨_, rfl⟩
  | bytesSlice xs => exact ⟨_, rfl⟩
  | intSlice xs => exact ⟨_, rfl⟩
  | other => exact ⟨_, rfl⟩
  | mapSI m hm ih =>
    obtain ⟨enc, henc, _⟩ := marshalEntries_forall₂ m ih
    exact ⟨.mk none none [] none (some enc) [] [] [] [],
      by simp only [createAttributeValue, henc]⟩

/-- Entry loop version of the round-trip: with a per-entry round-trip
assumption, `Marshal`'s loop succeeds, preserves length, and decoding the
result gives the spec-side transformation. -/
lemma entries_roundtrip (l : List (String × GoValue))
    (h : ∀ e ∈ l, ∃ av, createAttributeValue (Prod.snd e) = .ok av ∧
        getItemValue av = specRoundLeaf (Prod.snd e)) :
    ∃ enc, marshalEntries l = .ok enc ∧ enc.length = l.length ∧
      decodeEntries enc = specRoundEntries l := by
  induction l with
  | nil => exact ⟨[], rfl, rfl, rfl⟩
  | cons e rest ih =>
    obtain ⟨k, v⟩ := e
    obtain ⟨av, hav, hdec⟩ := h (k, v) (List.mem_cons_self _ _)
    obtain ⟨enc, henc, hlen, hde⟩ := ih (fun x hx => h x (List.mem_cons_of_mem _ hx))
    refine ⟨(k, av) :: enc, by simp only [marshalEntries, hav, henc], by simp [hlen], ?_⟩
    simp only [decodeEntries, specRoundEntries, hdec, hde]

/-- Scalar/nested-map round trip: every `GoodVal` value encodes successfully
and decodes to the spec-side transformation of itself. -/
lemma encode_decode_good (v : GoValue) (h : GoodVal v) :
    ∃ av, createAttributeValue v = .ok av ∧ getItemValue av = specRoundLeaf v := by
  induction h with
  | str s => exact ⟨_, rfl, rfl⟩
  | int n h1 h2 =>
    refine ⟨_, rfl, ?_⟩
    show DecValue.int (goAtoi (goSprintInt n)).1 = specRoundLeaf (.int n)
    rw [goAtoi_goSprintInt n h1 h2]
    rfl
  | bool b => exact ⟨_, rfl, rfl⟩
  | mapSI m hne hfor ih =>
    obtain ⟨enc, henc, hlen, hde⟩ := entries_roundtrip m ih
    have hencne : enc ≠ [] := by
      intro h0
      rw [h0] at hlen
      exact hne (List.eq_nil_of_length_eq_zero (by simpa using hlen.symm))
    obtain ⟨e, es, hcons⟩ := List.exists_cons_of_ne_nil hencne
    refine ⟨.mk none none [] none (some enc) [] [] [] [],
      by simp only [createAttributeValue, henc], ?_⟩
    rw [hcons]
    show DecValue.map (decodeEntries (e :: es)) = specRoundLeaf (.mapSI m)
    rw [← hcons, hde]
    rfl

/-- Evaluation of the decoder on a non-empty NS slot with all earlier slots
unpopulated. -/
lemma getItemValue_ns (s0 : String) (ns : List String) :
    getItemValue (.mk none none [] none none (s0 :: ns) [] [] []) =
      .intList ((s0 :: ns).map (fun s => (goAtoi s).1)) := by
  simp [getItemValue]

/-- Evaluation of the decoder on a non-empty B slot with all earlier slots
unpopulated. -/
lemma getItemValue_bytes (x : Nat) (xs : List Nat) :
    getItemValue (.mk none none (x :: xs) none none [] [] [] []) =
      .bytes (x :: xs) := by
  simp [getItemValue]

/-! ### Claims -/

/-- C1 counterexample: decoding the NumberSet `["1.5"]` does not drop the
unparseable element — it yields `[0]`, not the empty sequence of
successfully parsed elements (`(goAtoi "1.5").2 = false` certifies the
parse failure). -/
theorem C1_counterexample :
    getItemValue (.mk none none [] none none ["1.5"] [] [] []) =
      .intList [0] ∧
    (goAtoi "1.5").2 = false ∧
    DecValue.intList [0] ≠ DecValue.intList [] :=
  ⟨rfl, rfl, by simp⟩

/-- C1 (amended): decoding a non-empty NumberSet never fails and keeps every
element in order; an element whose text fails integer parsing is kept with
the value the ignored-error `strconv.Atoi` call returned (0 for a syntax
error, the clamped 64-bit bound for a range error), so the result has
exactly one element per set element — none are dropped. -/
theorem C1_numberSet_keeps_failed_elements (s0 : String) (ns : List String) :
    getItemValue (.mk none none [] none none (s0 :: ns) [] [] []) =
      .intList ((s0 :: ns).map (fun s => (goAtoi s).1)) ∧
    ((s0 :: ns).map (fun s => (goAtoi s).1)).length = (s0 :: ns).length :=
  ⟨getItemValue_ns s0 ns, by simp⟩

/-- C2 counterexample: decoding a Number slot holding the fractional text
"1.5" yields the ordinary integer result 0 — no decode failure or
field-level defect exists anywhere in the decoder (`(goAtoi "1.5").2 =
false` certifies that integer parsing failed). -/
theorem C2_counterexample :
    getItemValue (.mk (some "1.5") none [] none none [] [] [] []) = .int 0 ∧
    (goAtoi "1.5").2 = false :=
  ⟨rfl, rfl⟩

/-- C2 (amended): for every populated Number slot the decoder returns an
ordinary integer, namely the first component of the error-discarding
`strconv.Atoi` call (0 when the text fails integer parsing); no failure is
recorded or surfaced. -/
theorem C2_number_decode_never_fails (ntext : String) (S : Option String)
    (B : List Nat) (BOOL : Option Bool)
    (M : Option (List (String × AttributeValue))) (NS SS : List String)
    (BS : List (List Nat)) (L : List AttributeValue) :
    getItemValue (.mk (some ntext) S B BOOL M NS SS BS L) =
      .int (goAtoi ntext).1 :=
  rfl

/-- C3: for every record whose entry values are supported scalars (string,
in-range integer, boolean) or, recursively, non-empty maps of such values,
`Unmarshal (Marshal m)` equals `m` with every leaf passed through the
scalar round-trip rules (strings and booleans unchanged, integers reparsed
as the canonical integer type). -/
theorem C3_record_roundtrip (m : List (String × GoValue))
    (h : ∀ e ∈ m, GoodVal (Prod.snd e)) :
    ∃ enc, Marshal m = .ok enc ∧
      Unmarshal (some enc) =
        m.map (fun kv => (Prod.fst kv, specRoundLeaf (Prod.snd kv))) := by
  obtain ⟨enc, henc, hlen, hde⟩ :=
    entries_roundtrip m (fun e he => encode_decode_good _ (h e he))
  refine ⟨enc, henc, ?_⟩
  show decodeEntries enc = _
  rw [hde, specRoundEntries_eq_map]

/-- C3 witness: a concrete record with a string, an integer and a nested
non-empty map round-trips as claimed. -/
theorem C3_record_roundtrip_witness :
    ∃ enc, Marshal [("name", GoValue.str "Alice"), ("age", GoValue.int 30),
        ("meta", GoValue.mapSI [("active", GoValue.bool true)])] = .ok enc ∧
      Unmarshal (some enc) =
        [("name", DecValue.str "Alice"), ("age", DecValue.int 30),
         ("meta", DecValue.map [("active", DecValue.bool true)])] := by
  have hyp : ∀ e ∈ [("name", GoValue.str "Alice"), ("age", GoValue.int 30),
      ("meta", GoValue.mapSI [("active", GoValue.bool true)])],
      GoodVal (Prod.snd e) := by
    intro e he
    simp only [List.mem_cons, List.not_mem_nil, or_false] at he
    rcases he with h1 | h1 | h1
    · rw [h1]; exact GoodVal.str _
    · rw [h1]; exact GoodVal.int _ (by decide) (by decide)
    · rw [h1]
      refine GoodVal.mapSI _ (by simp) ?_
      intro e2 he2
      simp only [List.mem_cons, List.not_mem_nil, or_false] at he2
      rw [he2]
      exact GoodVal.bool _
  obtain ⟨enc, henc, hdec⟩ := C3_record_roundtrip _ hyp
  exact ⟨enc, henc, by simpa [specRoundLeaf, specRoundEntries] using hdec⟩

/-- C4: every integer in the 64-bit range encodes to a Number holding its
decimal text and decodes back to exactly that integer. -/
theorem C4_int_roundtrip (n : Int) (h1 : intMin ≤ n) (h2 : n ≤ intMax) :
    ∃ av, createAttributeValue (.int n) = .ok av ∧ getItemValue av = .int n := by
  obtain ⟨av, hav, hdec⟩ := encode_decode_good (.int n) (GoodVal.int n h1 h2)
  exact ⟨av, hav, by rwa [specRoundLeaf] at hdec⟩

/-- C4 witness: the round trip at the in-range integer 30. -/
theorem C4_int_roundtrip_witness :
    (intMin ≤ (30 : Int) ∧ (30 : Int) ≤ intMax) ∧
    ∃ av, createAttributeValue (.int 30) = .ok av ∧ getItemValue av = .int 30 :=
  ⟨⟨by decide, by decide⟩, C4_int_roundtrip 30 (by decide) (by decide)⟩

/-- C5 counterexample: the encoder is not total — a value whose reflection
kind is `Map` but whose dynamic type is not `map[string]interface{}` (here
a `map[string]string`) makes the type assertion
`v.(map[string]interface{})` panic instead of returning a TaggedValue. -/
theorem C5_counterexample :
    createAttributeValue (.mapSS [("a", "b")]) = .error () :=
  rfl

/-- C5 (amended): on every value containing no map of a dynamic type other
than `map[string]interface{}`, the encoder succeeds, and a value matched by
no dispatch rule yields the Empty/Unset variant (no populated slot); maps
of any other dynamic type panic instead. -/
theorem C5_encode_total_unless_badmap (v : GoValue) (h : PanicFree v) :
    ∃ av, createAttributeValue v = .ok av ∧
      (v = .other → av = .mk none none [] none none [] [] [] []) := by
  obtain ⟨av, hav⟩ := createAttributeValue_ok v h
  refine ⟨av, hav, ?_⟩
  intro hv
  subst hv
  exact (Except.ok.inj hav).symm

/-- C5 witness: the unmatched shape encodes to the Empty/Unset variant. -/
theorem C5_encode_total_unless_badmap_witness :
    ∃ av, createAttributeValue .other = .ok av ∧
      (GoValue.other = .other → av = .mk none none [] none none [] [] [] []) :=
  C5_encode_total_unless_badmap .other PanicFree.other

/-- C6: a Map slot holding zero entries and an empty Binary buffer both
decode to null/absent, so an empty byte buffer does not round-trip
(encode then decode yields null), while every non-empty byte buffer
round-trips to itself. -/
theorem C6_empty_map_empty_binary_absent (b : List Nat) :
    getItemValue (.mk none none [] none (some []) [] [] [] []) = .nil ∧
    getItemValue (.mk none none [] none none [] [] [] []) = .nil ∧
    (∃ av, createAttributeValue (.bytes []) = .ok av ∧ getItemValue av = .nil) ∧
    (b ≠ [] → ∃ av, createAttributeValue (.bytes b) = .ok av ∧
      getItemValue av = .bytes b) := by
  refine ⟨rfl, rfl, ⟨_, rfl, rfl⟩, ?_⟩
  intro hb
  obtain ⟨x, xs, hcons⟩ := List.exists_cons_of_ne_nil hb
  subst hcons
  exact ⟨_, rfl, getItemValue_bytes x xs⟩

/-- C6 witness: the non-empty byte buffer `[7]` round-trips. -/
theorem C6_empty_map_empty_binary_absent_witness :
    ([7] : List Nat) ≠ [] ∧
    (∃ av, createAttributeValue (.bytes [7]) = .ok av ∧
      getItemValue av = .bytes [7]) :=
  ⟨by simp, (C6_empty_map_empty_binary_absent [7]).2.2.2 (by simp)⟩

/-- C7: encoding the homogeneous integer slice `[1,2,3]` yields a NumberSet
with exactly the Number texts "1","2","3" in that order, and decoding that
NumberSet yields the integers 1,2,3 in the same insertion order (the
implementation is order-preserving). -/
theorem C7_intSlice_numberSet_order :
    createAttributeValue (.intSlice [1, 2, 3]) =
      .ok (.mk none none [] none none ["1", "2", "3"] [] [] []) ∧
    getItemValue (.mk none none [] none none ["1", "2", "3"] [] [] []) =
      .intList [1, 2, 3] :=
  ⟨rfl, rfl⟩

/-- C8: `Unmarshal` is total on its pointer argument — a nil map pointer
yields the empty record, and a present map yields exactly one entry per
input field, each decoded through `getItemValue`. -/
theorem C8_unmarshal_total (m : List (String × AttributeValue)) :
    Unmarshal none = ([] : List (String × DecValue)) ∧
    Unmarshal (some m) =
      m.map (fun kv => (Prod.fst kv, getItemValue (Prod.snd kv))) :=
  ⟨rfl, decodeEntries_eq_map m⟩

/-- C9 counterexample: `Marshal` does not always succeed — a record holding
a map value whose dynamic type is not `map[string]interface{}` makes the
encoding of that entry panic. -/
theorem C9_counterexample :
    Marshal [("a", GoValue.mapSS [("x", "y")])] = .error () :=
  rfl

/-- C9 (amended): on every record whose entry values are panic-free (contain
no map of a dynamic type other than `map[string]interface{}`), `Marshal`
succeeds and keeps exactly the input's key sequence — every entry is
encoded through `createAttributeValue` and entries whose encoding produced
the Empty/Unset variant are retained. -/
theorem C9_marshal_keeps_all_fields (r : List (String × GoValue))
    (h : ∀ e ∈ r, PanicFree (Prod.snd e)) :
    ∃ enc, Marshal r = .ok enc ∧
      enc.map Prod.fst = r.map Prod.fst ∧
      List.Forall₂ (fun kv ev => Prod.fst ev = Prod.fst kv ∧
        createAttributeValue (Prod.snd kv) = .ok (Prod.snd ev)) r enc := by
  obtain ⟨enc, henc, hrel⟩ :=
    marshalEntries_forall₂ r (fun e he => createAttributeValue_ok _ (h e he))
  have hkeys : ∀ (l1 : List (String × GoValue))
      (l2 : List (String × AttributeValue)),
      List.Forall₂ (fun kv ev => Prod.fst ev = Prod.fst kv ∧
        createAttributeValue (Prod.snd kv) = .ok (Prod.snd ev)) l1 l2 →
      l2.map Prod.fst = l1.map Prod.fst := by
    intro l1 l2 hrel2
    induction hrel2 with
    | nil => rfl
    | cons h1 _ ih => simp [h1.1, ih]
  exact ⟨enc, henc, hkeys r enc hrel, hrel⟩

/-- C9 witness: a record with an unrecognized-shape entry (which encodes to
Empty/Unset) and a string entry keeps both fields. -/
theorem C9_marshal_keeps_all_fields_witness :
    ∃ enc, Marshal [("a", GoValue.other), ("b", GoValue.str "x")] = .ok enc ∧
      enc.map Prod.fst =
        [("a", GoValue.other), ("b", GoValue.str "x")].map Prod.fst ∧
      List.Forall₂ (fun kv ev => Prod.fst ev = Prod.fst kv ∧
        createAttributeValue (Prod.snd kv) = .ok (Prod.snd ev))
        [("a", GoValue.other), ("b", GoValue.str "x")] enc := by
  refine C9_marshal_keeps_all_fields _ ?_
  intro e he
  simp only [List.mem_cons, List.not_mem_nil, or_false] at he
  rcases he with h1 | h1
  · rw [h1]; exact PanicFree.other
  · rw [h1]; exact PanicFree.str _

/-- C10: `NewKeySchema` called with at least one element returns exactly the
first element alone (one argument) or the first two in order (two or more
arguments), silently discarding every element beyond the second — the
result never holds more than two key-schema elements. -/
theorem C10_newKeySchema_truncates (e0 : KeySchemaElement)
    (rest : List KeySchemaElement) :
    NewKeySchema (e0 :: rest) = some ((e0 :: rest).take 2) ∧
    (rest = [] → NewKeySchema (e0 :: rest) = some [e0]) ∧
    (∀ e1 rest2, rest = e1 :: rest2 →
      NewKeySchema (e0 :: rest) = some [e0, e1]) := by
  cases rest with
  | nil =>
    exact ⟨rfl, fun _ => rfl, fun e1 rest2 h => List.noConfusion h⟩
  | cons e1 rest2 =>
    refine ⟨rfl, fun h => List.noConfusion h, ?_⟩
    intro e1a rest2a h
    injection h with h1 h2
    subst h1
    rfl

/-- C10 witness: a hash key, a range key and one extra element — the extra
element is discarded and only the first two survive. -/
theorem C10_newKeySchema_truncates_witness :
    NewKeySchema [NewHashKeyElement "id", NewRangeKeyElement "ts",
        NewHashKeyElement "extra"] =
      some [NewHashKeyElement "id", NewRangeKeyElement "ts"] :=
  (C10_newKeySchema_truncates (NewHashKeyElement "id")
    [NewRangeKeyElement "ts", NewHashKeyElement "extra"]).2.2
    (NewRangeKeyElement "ts") [NewHashKeyElement "extra"] rfl

end Dynamo
